import Mathlib

/-!
Shallow embedding of the practice-helper core (tuner, drone, metronome)
from src/src/components/Tuner.tsx, Drone.tsx and Metronome.tsx.

Real-valued audio math is embedded over the exact reals; machine floats
are out of scope.  List-and-state logic is embedded computably so that
concrete traces evaluate by decide or rfl.
-/

/-! ### FrequencyModel and Tuner math (Tuner.tsx) -/

/-- NOTE_NAMES from Tuner.tsx line 7. -/
def NOTE_NAMES : List String :=
  ["C", "C#", "D", "D#", "E"] ++ ["F", "F#", "G", "G#", "A", "A#", "B"]

/-- The value 12 * Math.log2(frequency / A4) computed in getNoteName (Tuner.tsx line 26),
with A4 = 440. -/
noncomputable def semitonesOf (frequency : ℝ) : ℝ := 12 * Real.logb 2 (frequency / 440)

/-- noteIndex from getNoteName (Tuner.tsx line 27): Math.round(semitones) + 57. -/
noncomputable def noteIndexOf (frequency : ℝ) : ℤ := round (semitonesOf frequency) + 57

/-- getNoteName (Tuner.tsx lines 24-31), returning the two components that the source
interpolates into one string: NOTE_NAMES[(noteIndex + 12 * 1000) % 12] (JS remainder
embeds as Int.tmod) and Math.floor(noteIndex / 12) (floor division embeds as Int.fdiv). -/
noncomputable def getNoteName (frequency : ℝ) : String × ℤ :=
  (NOTE_NAMES.getD ((noteIndexOf frequency + 12 * 1000).tmod 12).toNat default,
    (noteIndexOf frequency).fdiv 12)

/-- getCents (Tuner.tsx lines 33-35): Math.floor(1200 * Math.log2(frequency / noteFreq)). -/
noncomputable def getCents (frequency noteFreq : ℝ) : ℤ :=
  ⌊1200 * Real.logb 2 (frequency / noteFreq)⌋

/-- noteIndex recomputed inside detect (Tuner.tsx line 128):
Math.round(12 * Math.log2(pitch / 440) + 57). -/
noncomputable def detectNoteIndex (pitch : ℝ) : ℤ := round (12 * Real.logb 2 (pitch / 440) + 57)

/-- noteFreq from detect (Tuner.tsx line 129): 440 * Math.pow(2, (noteIndex - 57) / 12). -/
noncomputable def detectNoteFreq (pitch : ℝ) : ℝ :=
  440 * (2 : ℝ) ^ ((((detectNoteIndex pitch) : ℝ) - 57) / 12)

/-- The frequency of the note with linear index 12 * octave + pitchClass, by the same
formula as Tuner.tsx line 129 (440 * 2 ^ ((noteIndex - 57) / 12)); this is the inverse
direction of getNoteName used to state the round-trip property. -/
noncomputable def noteToFrequency (pitchClass : ℕ) (octave : ℤ) : ℝ :=
  440 * (2 : ℝ) ^ ((((12 * octave + pitchClass : ℤ) : ℝ) - 57) / 12)

/-- minRMS constant from Tuner.tsx line 110. -/
noncomputable def minRMS : ℝ := 0.01

/-- clarityThreshold constant from Tuner.tsx line 111. -/
noncomputable def clarityThreshold : ℝ := 0.8

/-- updateInterval constant from Tuner.tsx line 112 (milliseconds). -/
noncomputable def updateInterval : ℝ := 16

/-- The tuner output visible to the presentation layer (setNote / setCents targets)
together with the lastUpdate throttle variable of the sampling loop. -/
structure TunerReading where
  note : Option (String × ℤ)
  cents : Option ℤ
  lastUpdate : ℝ

/-- RMS amplitude computed in detect (Tuner.tsx lines 116-120):
sqrt of the mean of the squared window samples. -/
noncomputable def rmsOf (buffer : List ℝ) : ℝ :=
  Real.sqrt ((buffer.map fun x => x * x).sum / buffer.length)

/-- One iteration of detect (Tuner.tsx lines 113-139) as a pure step.  The pitchy call
detectPitch.findPitch is an external collaborator, so its result (pitch, clarity) is an
input; the returned Bool records whether the iteration reached that call.  The source
updates note / cents via setNote / setCents only inside the throttled branch and leaves
them untouched otherwise. -/
noncomputable def detect (buffer : List ℝ) (now : ℝ) (pitch clarity : ℝ)
    (st : TunerReading) : TunerReading × Bool :=
  if minRMS < rmsOf buffer ∧ updateInterval < now - st.lastUpdate then
    if clarityThreshold < clarity ∧ 50 < pitch ∧ pitch < 2000 then
      (⟨some (getNoteName pitch), some (getCents pitch (detectNoteFreq pitch)), now⟩, true)
    else
      (⟨none, none, now⟩, true)
  else
    (st, false)

/-! ### Drone voice allocator (Drone.tsx, first revision lines 1-463;
second revision lines 464-1008 where it differs) -/

/-- NOTES from Drone.tsx line 4. -/
def NOTES : List String :=
  ["C", "C#", "D", "D#", "E", "F", "F#"] ++ ["G", "G#", "A", "A#", "B"]

/-- Models Tone.Frequency(noteName + octave).toMidi() for the chromatic names in NOTES:
the standard MIDI index, 12 * (octave + 1) + pitchClass (so C4 = 60, A4 = 69). -/
def noteMidi (n : String) (octave : ℤ) : ℤ := 12 * (octave + 1) + ((NOTES.indexOf n : ℕ) : ℤ)

/-- getFrequency (Drone.tsx lines 51-54): a4Frequency * Math.pow(2, (midi - 69) / 12). -/
noncomputable def getFrequency (a4Frequency : ℝ) (n : String) (octave : ℤ) : ℝ :=
  a4Frequency * (2 : ℝ) ^ ((((noteMidi n octave) : ℝ) - 69) / 12)

/-- JUST_INTONATION_RATIOS from Drone.tsx lines 7-20. -/
noncomputable def JUST_INTONATION_RATIOS : List ℝ :=
  [1, 16 / 15, 9 / 8, 6 / 5, 5 / 4, 4 / 3, 45 / 32, 3 / 2, 8 / 5, 5 / 3, 16 / 9, 15 / 8]

/-- Interval computation from Drone.tsx lines 167-168: let interval = (nextMidi - rootMidi)
% 12 (JS remainder = Int.tmod); if (interval < 0) interval += 12. -/
def intervalOf (rootMidi nextMidi : ℤ) : ℤ :=
  let r := (nextMidi - rootMidi).tmod 12
  if r < 0 then r + 12 else r

/-- octaveDiff from Drone.tsx line 171: Math.floor((nextMidi - rootMidi) / 12)
(floor division embeds as Int.fdiv). -/
def octaveDiffOf (rootMidi nextMidi : ℤ) : ℤ := (nextMidi - rootMidi).fdiv 12

/-- freqsToPlay as computed in startAudio (Drone.tsx lines 158-174): equal-tempered
frequencies for every slot, with every non-root slot overwritten by the just ratio
against the root when justIntonation is on and 2 or 3 notes are selected.  Octave
lookups model noteOctaves[index] || octave via getD with the octave default. -/
noncomputable def freqsToPlay (justIntonation : Bool) (a4Frequency : ℝ)
    (selectedNotes : List String) (noteOctaves : List ℤ) (octave : ℤ) : List ℝ :=
  let equalTempFreqs :=
    selectedNotes.mapIdx fun i n => getFrequency a4Frequency n (noteOctaves.getD i octave)
  if justIntonation = true ∧ 1 < selectedNotes.length ∧ selectedNotes.length < 4 then
    match selectedNotes with
    | [] => equalTempFreqs
    | rootName :: _ =>
      let rootMidi := noteMidi rootName (noteOctaves.getD 0 octave)
      let rootFreq := getFrequency a4Frequency rootName (noteOctaves.getD 0 octave)
      selectedNotes.mapIdx fun i n =>
        if i = 0 then rootFreq
        else
          rootFreq *
              JUST_INTONATION_RATIOS.getD
                (intervalOf rootMidi (noteMidi n (noteOctaves.getD i octave))).toNat 0 *
            (2 : ℝ) ^ octaveDiffOf rootMidi (noteMidi n (noteOctaves.getD i octave))
  else equalTempFreqs

/-- handleNoteChange (Drone.tsx lines 212-222): remove all voices with the toggled name,
else append below capacity, else drop the oldest and append. -/
def handleNoteChange (maxNotes : ℕ) (newNote : String) (prevNotes : List String) :
    List String :=
  if newNote ∈ prevNotes then prevNotes.filter fun n => n != newNote
  else if prevNotes.length < maxNotes then prevNotes ++ [newNote]
  else prevNotes.drop 1 ++ [newNote]

/-- handleMaxNotesChange, first revision (Drone.tsx lines 224-234): selectedNotes becomes
prev.slice(0, newMaxNotes); noteOctaves becomes prev.slice(0, newMaxNotes) padded with the
octave default (4 in this revision) up to newMaxNotes. -/
def handleMaxNotesChange (newMaxNotes : ℕ) (selectedNotes : List String)
    (noteOctaves : List ℤ) (octave : ℤ) : List String × List ℤ :=
  (selectedNotes.take newMaxNotes,
    noteOctaves.take newMaxNotes ++
      List.replicate (newMaxNotes - (noteOctaves.take newMaxNotes).length) octave)

/-- handleMaxNotesChange, second revision (Drone.tsx lines 659-689): noteOctaves is padded
or cut to newMaxNotes; selectedNotes becomes prev.slice(-newMaxNotes) (its last newMaxNotes
entries) when it exceeds the new maximum. -/
def handleMaxNotesChangeV2 (newMaxNotes : ℕ) (selectedNotes : List String)
    (noteOctaves : List ℤ) (octave : ℤ) : List String × List ℤ :=
  let octs :=
    if noteOctaves.length < newMaxNotes then
      noteOctaves ++ List.replicate (newMaxNotes - noteOctaves.length) octave
    else if newMaxNotes < noteOctaves.length then noteOctaves.take newMaxNotes
    else noteOctaves
  let notes :=
    if newMaxNotes < selectedNotes.length then
      selectedNotes.drop (selectedNotes.length - newMaxNotes)
    else selectedNotes
  (notes, octs)

/-- handleOctaveChange (Drone.tsx lines 236-242): unconditionally writes the new octave at
the slot (newOctaves[slotIndex] = newOctave on a copy). -/
def handleOctaveChange (slotIndex : ℕ) (newOctave : ℤ) (noteOctaves : List ℤ) : List ℤ :=
  noteOctaves.set slotIndex newOctave

/-- The drone session state mutated by the three handlers. -/
structure DroneState where
  maxNotes : ℕ
  selectedNotes : List String
  noteOctaves : List ℤ
deriving DecidableEq

/-- Initial drone state (Drone.tsx lines 40-42): no notes, octave list [4], maxNotes 1. -/
def droneInit : DroneState := ⟨1, [], [4]⟩

/-- User events of the drone allocator. -/
inductive DroneEv where
  | toggleNote (n : String)
  | setMaxVoices (k : ℕ)
  | setOctave (slot : ℕ) (o : ℤ)

/-- One drone event dispatched to its handler. -/
def droneStep (st : DroneState) : DroneEv → DroneState
  | .toggleNote n =>
      { st with selectedNotes := handleNoteChange st.maxNotes n st.selectedNotes }
  | .setMaxVoices k =>
      let p := handleMaxNotesChange k st.selectedNotes st.noteOctaves 4
      { maxNotes := k, selectedNotes := p.1, noteOctaves := p.2 }
  | .setOctave slot o =>
      { st with noteOctaves := handleOctaveChange slot o st.noteOctaves }

/-- States reachable from the initial drone state by user events. -/
def droneReach (st : DroneState) : Prop :=
  ∃ evs : List DroneEv, st = List.foldl droneStep droneInit evs

/-! ### Click-track scheduler (Metronome.tsx) -/

/-- The metronome state relevant to starting, stopping and live sound switching.
armed models the samples currently bound to the beat callback: the source keeps them in
the single ref synthRef read by the Tone.Loop callback, and createClickPlayer disposes
the previous player before assigning the next.  pendingStarts counts handleStart
executions that have begun (setSwitching(true), Metronome.tsx line 131) but not yet
reached startLoop completion (line 164) or the catch handler. -/
structure MetState where
  isPlaying : Bool
  switching : Bool
  isLoading : Bool
  clickSoundType : String
  armed : List String
  loopBound : Bool
  pendingStarts : ℕ
deriving DecidableEq

/-- Initial metronome state (Metronome.tsx lines 18-30). -/
def metInit : MetState :=
  { isPlaying := false, switching := false, isLoading := false,
    clickSoundType := "perc_chair_lo", armed := [], loopBound := false, pendingStarts := 0 }

/-- cleanupAudio (Metronome.tsx lines 105-125): stops and disposes the loop and player. -/
def cleanupAudio (st : MetState) : MetState := { st with armed := [], loopBound := false }

/-- handleStop (Metronome.tsx lines 193-199): setIsPlaying(false), cleanupAudio,
setSwitching(false). -/
def handleStop (st : MetState) : MetState :=
  { cleanupAudio st with isPlaying := false, switching := false }

/-- The synchronous head of handleStart (Metronome.tsx line 131): setSwitching(true)
before the awaits; one more start execution is now in flight. -/
def handleStartBegin (st : MetState) : MetState :=
  { st with switching := true, pendingStarts := st.pendingStarts + 1 }

/-- The completion of one in-flight handleStart on the preloaded path (Metronome.tsx
lines 139-169): cleanupAudio, createClickPlayer (dispose old, bind the one new sample),
startLoop (bind loop, setSwitching(false), setIsPlaying(true)). -/
def handleStartFinish (file : String) (st : MetState) : MetState :=
  { st with
    armed := [file]
    loopBound := true
    switching := false
    isPlaying := true
    pendingStarts := st.pendingStarts - 1 }

/-- handleToggle (Metronome.tsx lines 202-224): stop when playing, otherwise begin a
start.  It has no switching or isLoading guard. -/
def handleToggle (st : MetState) : MetState :=
  if st.isPlaying then handleStop st else handleStartBegin st

/-- The click sound button onClick (Metronome.tsx lines 381-393): rejected while
switching or loading; while playing it stops, records the new selection and leaves the
restart to a deferred handleStart (a later startBegin event); otherwise it only records
the selection. -/
def soundButtonClick (file : String) (st : MetState) : MetState :=
  if st.switching || st.isLoading then st
  else if st.isPlaying then { handleStop st with clickSoundType := file }
  else { st with clickSoundType := file }

/-- Metronome events: the container toggle, a click-sound button press, the deferred
handleStart firing (setTimeout(() => handleStart(), 100)), and a start completing. -/
inductive MetEv where
  | toggle
  | soundClick (file : String)
  | startBegin
  | startFinish (file : String)

/-- One metronome event dispatched to its handler. -/
def metStep (st : MetState) : MetEv → MetState
  | .toggle => handleToggle st
  | .soundClick file => soundButtonClick file st
  | .startBegin => handleStartBegin st
  | .startFinish file => handleStartFinish file st

/-- States reachable from the initial metronome state. -/
def metReach (st : MetState) : Prop :=
  ∃ evs : List MetEv, st = List.foldl metStep metInit evs

/-! ### Auto-retry timers (Tuner.tsx, Metronome.tsx, Drone.tsx second revision) -/

/-- Events acting on a retry-timeout ref: a failure path runs (the catch blocks), the
pending timeout fires (active: the component is still meant to run; failsAgain: the
re-attempt fails again), stop runs, the component unmounts. -/
inductive RetryEv where
  | fail
  | fire (active : Bool) (failsAgain : Bool)
  | stop
  | unmount

/-- The number of pending retry timeouts of the tuner (retryTimeoutRef, Tuner.tsx).
fail (lines 144-152) schedules only when none is pending; a firing timeout first clears
the ref, then only when still listening re-enters listen, whose failure schedules again;
stop (lines 64-67) clears a pending timeout, and unmount calls stop (lines 179-181). -/
def tunerRetryStep (n : ℕ) : RetryEv → ℕ
  | .fail => if n = 0 then 1 else n
  | .fire active failsAgain => if n = 0 then 0 else if active && failsAgain then 1 else 0
  | .stop => 0
  | .unmount => 0

/-- The number of pending retry timeouts of the metronome (retryTimeoutRef,
Metronome.tsx).  fail (lines 182-188 and 215-221) schedules only when none is pending;
firing mirrors the tuner; handleStop (lines 193-199) does not touch the ref; only the
unmount cleanup (lines 252-260) clears it. -/
def metronomeRetryStep (n : ℕ) : RetryEv → ℕ
  | .fail => if n = 0 then 1 else n
  | .fire active failsAgain => if n = 0 then 0 else if active && failsAgain then 1 else 0
  | .stop => n
  | .unmount => 0

/-- The number of pending retry timeouts of the drone, second revision (retryTimeoutRef,
Drone.tsx lines 480, 561-564, 606-612): same scheduling guard as the tuner, and stop
clears a pending timeout; unmount calls stop (lines 745-749). -/
def droneRetryStep (n : ℕ) : RetryEv → ℕ
  | .fail => if n = 0 then 1 else n
  | .fire active failsAgain => if n = 0 then 0 else if active && failsAgain then 1 else 0
  | .stop => 0
  | .unmount => 0

/-! ### Helper lemmas -/

theorem not_mem_filter_bne (x : String) (l : List String) :
    x ∉ l.filter fun n => n != x := by
  simp [List.mem_filter]

theorem filter_bne_of_not_mem {x : String} {l : List String} (h : x ∉ l) :
    (l.filter fun n => n != x) = l := by
  apply List.filter_eq_self.mpr
  intro a ha
  simp only [bne_iff_ne, ne_eq, decide_eq_true_eq]
  exact fun e => h (e ▸ ha)

theorem nodup_zip_left {α β : Type} {l1 : List α} (l2 : List β) (h : l1.Nodup) :
    (l1.zip l2).Nodup := by
  induction l1 generalizing l2 with
  | nil => simp
  | cons a l ih =>
    cases l2 with
    | nil => simp
    | cons b l2 =>
      rw [List.zip_cons_cons]
      refine List.nodup_cons.mpr ⟨?_, ih l2 (List.nodup_cons.mp h).2⟩
      intro hmem
      exact (List.nodup_cons.mp h).1 (List.of_mem_zip hmem).1

theorem handleNoteChange_nodup {maxNotes : ℕ} {x : String} {l : List String}
    (h : l.Nodup) : (handleNoteChange maxNotes x l).Nodup := by
  unfold handleNoteChange
  by_cases hm : x ∈ l
  · rw [if_pos hm]
    exact h.filter _
  · rw [if_neg hm]
    by_cases hlen : l.length < maxNotes
    · rw [if_pos hlen]
      refine h.append (List.nodup_singleton x) ?_
      intro a ha hb
      rw [List.mem_singleton] at hb
      exact hm (hb ▸ ha)
    · rw [if_neg hlen]
      refine (List.Nodup.sublist (List.drop_sublist 1 l) h).append (List.nodup_singleton x) ?_
      intro a ha hb
      rw [List.mem_singleton] at hb
      exact hm (hb ▸ List.mem_of_mem_drop ha)

theorem droneStep_nodup (st : DroneState) (ev : DroneEv)
    (h : st.selectedNotes.Nodup) : (droneStep st ev).selectedNotes.Nodup := by
  cases ev with
  | toggleNote n => exact handleNoteChange_nodup h
  | setMaxVoices k =>
    exact List.Nodup.sublist (List.take_sublist _ _) h
  | setOctave slot o => exact h

theorem droneReach_nodup_aux (evs : List DroneEv) (st : DroneState)
    (h : st.selectedNotes.Nodup) :
    (List.foldl droneStep st evs).selectedNotes.Nodup := by
  induction evs generalizing st with
  | nil => exact h
  | cons e evs ih => exact ih _ (droneStep_nodup st e h)

theorem metStep_armed_le (st : MetState) (ev : MetEv)
    (h : st.armed.length ≤ 1) : (metStep st ev).armed.length ≤ 1 := by
  cases ev <;>
    simp only [metStep, handleToggle, soundButtonClick, handleStartBegin,
      handleStartFinish, handleStop, cleanupAudio] <;>
    first
    | (split_ifs <;> simp_all)
    | simp_all

theorem metReach_armed_aux (evs : List MetEv) (st : MetState) (h : st.armed.length ≤ 1) :
    (List.foldl metStep st evs).armed.length ≤ 1 := by
  induction evs generalizing st with
  | nil => exact h
  | cons e evs ih => exact ih _ (metStep_armed_le st e h)

theorem retry_le_one_tuner (n : ℕ) (ev : RetryEv) (h : n ≤ 1) : tunerRetryStep n ev ≤ 1 := by
  cases ev <;> simp only [tunerRetryStep] <;>
    first
    | (split_ifs <;> omega)
    | omega

theorem retry_le_one_metronome (n : ℕ) (ev : RetryEv) (h : n ≤ 1) :
    metronomeRetryStep n ev ≤ 1 := by
  cases ev <;> simp only [metronomeRetryStep] <;>
    first
    | (split_ifs <;> omega)
    | omega

theorem retry_le_one_drone (n : ℕ) (ev : RetryEv) (h : n ≤ 1) : droneRetryStep n ev ≤ 1 := by
  cases ev <;> simp only [droneRetryStep] <;>
    first
    | (split_ifs <;> omega)
    | omega

theorem foldl_le_one (f : ℕ → RetryEv → ℕ) (hf : ∀ n ev, n ≤ 1 → f n ev ≤ 1)
    (evs : List RetryEv) (n : ℕ) (h : n ≤ 1) : List.foldl f n evs ≤ 1 := by
  induction evs generalizing n with
  | nil => exact h
  | cons e evs ih => exact ih (f n e) (hf n e h)

/-! ### Claim theorems -/

/-- C10: every reachable drone voice list contains each pitch-class name at most once,
across all octaves; the invariant is established at the initial state and preserved by
toggleNote (handleNoteChange), setMaxVoices (handleMaxNotesChange) and setOctave
(handleOctaveChange). -/
theorem c10_nodup_invariant (st : DroneState) (hr : droneReach st) :
    st.selectedNotes.Nodup := by
  obtain ⟨evs, rfl⟩ := hr
  exact droneReach_nodup_aux evs droneInit (by simp [droneInit])

/-- C10 witness: the invariant evaluated on a concrete reachable state. -/
theorem c10_witness :
    (List.foldl droneStep droneInit
        [DroneEv.toggleNote ("C"), DroneEv.setMaxVoices 2]).selectedNotes.Nodup :=
  c10_nodup_invariant _ ⟨[DroneEv.toggleNote ("C"), DroneEv.setMaxVoices 2], rfl⟩

/-- C4 counterexample: the reachable at-capacity list [C, D, E] with maxNotes 3 does not
return to its prior contents after toggling F twice: the first toggle evicts C and the
second only removes F, leaving [D, E]. -/
theorem c4_counterexample :
    handleNoteChange 3 ("E") (handleNoteChange 3 ("D") (handleNoteChange 3 ("C") [])) =
        [("C"), ("D"), ("E")]
    ∧ handleNoteChange 3 ("F") (handleNoteChange 3 ("F") [("C"), ("D"), ("E")]) =
        [("D"), ("E")]
    ∧ ([("D"), ("E")] : List String) ≠ [("C"), ("D"), ("E")] := by
  decide

/-- C4 amended: toggling the same pitch class twice restores the exact prior list when
the class was absent and the list strictly below capacity; when the class was present it
restores the same voices up to order (the toggled class moves to the end); when the class
was absent and the list at capacity the oldest voice is permanently dropped and the
double toggle yields the prior list minus its first element. -/
theorem c4_double_toggle (maxNotes : ℕ) (x : String) (prev : List String)
    (hnd : prev.Nodup) :
    (x ∉ prev → prev.length < maxNotes →
      handleNoteChange maxNotes x (handleNoteChange maxNotes x prev) = prev)
    ∧ (x ∈ prev → prev.length ≤ maxNotes →
      (handleNoteChange maxNotes x (handleNoteChange maxNotes x prev)).Perm prev)
    ∧ (x ∉ prev → ¬ prev.length < maxNotes →
      handleNoteChange maxNotes x (handleNoteChange maxNotes x prev) = prev.drop 1) := by
  refine ⟨?_, ?_, ?_⟩
  · intro hx hlen
    have h1 : handleNoteChange maxNotes x prev = prev ++ [x] := by
      unfold handleNoteChange
      rw [if_neg hx, if_pos hlen]
    rw [h1]
    unfold handleNoteChange
    rw [if_pos (List.mem_append_right _ (List.mem_singleton_self x))]
    rw [List.filter_append, filter_bne_of_not_mem hx]
    simp
  · intro hx hcap
    have h1 : handleNoteChange maxNotes x prev = prev.erase x := by
      unfold handleNoteChange
      rw [if_pos hx, ← hnd.erase_eq_filter]
    have hx2 : x ∉ prev.erase x := by
      rw [hnd.erase_eq_filter]
      exact not_mem_filter_bne x prev
    have hpos : 0 < prev.length := List.length_pos_of_mem hx
    have hlen2 : (prev.erase x).length < maxNotes := by
      rw [List.length_erase_of_mem hx]
      omega
    rw [h1]
    unfold handleNoteChange
    rw [if_neg hx2, if_pos hlen2]
    exact (List.perm_append_singleton x _).trans (List.perm_cons_erase hx).symm
  · intro hx hlen
    have h1 : handleNoteChange maxNotes x prev = prev.drop 1 ++ [x] := by
      unfold handleNoteChange
      rw [if_neg hx, if_neg hlen]
    have hx2 : x ∉ prev.drop 1 := fun hm => hx (List.mem_of_mem_drop hm)
    rw [h1]
    unfold handleNoteChange
    rw [if_pos (List.mem_append_right _ (List.mem_singleton_self x))]
    rw [List.filter_append, filter_bne_of_not_mem hx2]
    simp

/-- C4 witness: the double toggle evaluated on a concrete below-eviction instance. -/
theorem c4_witness :
    (handleNoteChange 1 ("C") (handleNoteChange 1 ("C") [("C")])).Perm [("C")] :=
  (c4_double_toggle 1 ("C") [("C")] (by decide)).2.1 (by decide) (by decide)

/-- C2 counterexample: the first revision of handleMaxNotesChange keeps the FIRST
newMaxNotes entries (prev.slice(0, newMaxNotes)), not the last ones: shrinking [C, C#]
to one voice keeps C, while the last-1 suffix is [C#]. -/
theorem c2_counterexample :
    (handleMaxNotesChange 1 [("C"), ("C#")] [4, 4] 4).1 = [("C")]
    ∧ List.drop ([("C"), ("C#")].length - 1) [("C"), ("C#")] = [("C#")]
    ∧ ([("C")] : List String) ≠ [("C#")] := by
  decide

/-- C2 amended: when the voice list exceeds the new maximum, the second revision keeps
its last newMaxNotes entries while the first revision keeps its first newMaxNotes
entries; both revisions leave the per-slot octave list with exactly newMaxNotes entries,
padding with the octave default. -/
theorem c2_trim (n : ℕ) (notes : List String) (octs : List ℤ) (d : ℤ)
    (hlen : n < notes.length) :
    (handleMaxNotesChangeV2 n notes octs d).1 = notes.drop (notes.length - n)
    ∧ (handleMaxNotesChange n notes octs d).1 = notes.take n
    ∧ (handleMaxNotesChange n notes octs d).2.length = n
    ∧ (handleMaxNotesChangeV2 n notes octs d).2.length = n := by
  refine ⟨?_, rfl, ?_, ?_⟩
  · simp only [handleMaxNotesChangeV2]
    rw [if_pos hlen]
  · simp only [handleMaxNotesChange, List.length_append, List.length_take,
      List.length_replicate]
    omega
  · simp only [handleMaxNotesChangeV2]
    split_ifs with h1 h2 <;>
      first
      | (simp only [List.length_append, List.length_take, List.length_replicate]; omega)
      | omega

/-- C2 witness: the trim behaviour evaluated at a concrete over-full list. -/
theorem c2_witness :
    (handleMaxNotesChangeV2 1 [("C"), ("C#")] [4, 4] 4).1 =
        List.drop ([("C"), ("C#")].length - 1) [("C"), ("C#")]
    ∧ (handleMaxNotesChange 1 [("C"), ("C#")] [4, 4] 4).1 = List.take 1 [("C"), ("C#")]
    ∧ (handleMaxNotesChange 1 [("C"), ("C#")] [4, 4] 4).2.length = 1
    ∧ (handleMaxNotesChangeV2 1 [("C"), ("C#")] [4, 4] 4).2.length = 1 :=
  c2_trim 1 [("C"), ("C#")] [4, 4] 4 (by decide)

/-- C3 counterexample: on the session state with voices (C,4) and (C,5) — distinct
(pitchClass, octave) pairs — setOctave(1, 4) is not rejected: handleOctaveChange writes
the octave unconditionally and the resulting voices duplicate the pair (C,4). -/
theorem c3_counterexample :
    handleOctaveChange 1 4 [4, 5] = [4, 4]
    ∧ ([4, 4] : List ℤ) ≠ [4, 5]
    ∧ ¬ (List.zip [("C"), ("C")] (handleOctaveChange 1 4 [4, 5])).Nodup
    ∧ (List.zip [("C"), ("C")] ([4, 5] : List ℤ)).Nodup := by
  decide

/-- C3 amended: handleOctaveChange performs no duplicate check and always writes the
requested octave at the slot; on states satisfying the reachable-state invariant that
active pitch-class names are distinct, no duplicate (pitchClass, octave) pair can arise
from any setOctave. -/
theorem c3_setOctave_no_check (notes : List String) (octs : List ℤ) (slot : ℕ) (o : ℤ)
    (hnd : notes.Nodup) (hslot : slot < octs.length) :
    (handleOctaveChange slot o octs)[slot]? = some o
    ∧ (notes.zip (handleOctaveChange slot o octs)).Nodup := by
  constructor
  · unfold handleOctaveChange
    rw [List.getElem?_set_self hslot]
  · exact nodup_zip_left _ hnd

/-- C3 witness: the unconditional write evaluated at a concrete state. -/
theorem c3_witness :
    (handleOctaveChange 1 5 [4, 4])[1]? = some 5
    ∧ (List.zip [("C"), ("D")] (handleOctaveChange 1 5 [4, 4])).Nodup :=
  c3_setOctave_no_check [("C"), ("D")] [4, 4] 1 5 (by decide) (by decide)

/-- C7 counterexample: after a start completes, a sound-button switch stops playback and
its deferred handleStart begins (switching = true, one start in flight); a toggle
arriving in that window is not rejected — it begins a second concurrent start
(pendingStarts becomes 2) instead of being a no-op. -/
theorem c7_counterexample :
    (List.foldl metStep metInit
        [MetEv.toggle, MetEv.startFinish ("a"), MetEv.soundClick ("b"),
          MetEv.startBegin]).switching = true
    ∧ (metStep (List.foldl metStep metInit
        [MetEv.toggle, MetEv.startFinish ("a"), MetEv.soundClick ("b"),
          MetEv.startBegin]) MetEv.toggle).pendingStarts = 2
    ∧ metStep (List.foldl metStep metInit
        [MetEv.toggle, MetEv.startFinish ("a"), MetEv.soundClick ("b"),
          MetEv.startBegin]) MetEv.toggle ≠
      List.foldl metStep metInit
        [MetEv.toggle, MetEv.startFinish ("a"), MetEv.soundClick ("b"),
          MetEv.startBegin] := by
  decide

/-- C7 amended: while a switch is in flight (switching = true) further sound-switch
requests are rejected as no-ops, but start and stop via the toggle are not gated; in
every reachable metronome state at most one sample is bound to the beat callback, and a
completed start leaves exactly the one new sample armed. -/
theorem c7_switch_lock (st : MetState) (f : String) (hr : metReach st) :
    (st.switching = true → soundButtonClick f st = st)
    ∧ st.armed.length ≤ 1
    ∧ (handleStartFinish f st).armed = [f] := by
  refine ⟨?_, ?_, rfl⟩
  · intro hs
    unfold soundButtonClick
    rw [if_pos (by simp [hs])]
  · obtain ⟨evs, rfl⟩ := hr
    exact metReach_armed_aux evs metInit (by simp [metInit])

/-- C7 witness: the lock and the armed-sample bound evaluated on a concrete reachable
in-flight state. -/
theorem c7_witness :
    soundButtonClick ("a") (metStep metInit MetEv.toggle) = metStep metInit MetEv.toggle
    ∧ (metStep metInit MetEv.toggle).armed.length ≤ 1 :=
  ⟨(c7_switch_lock (metStep metInit MetEv.toggle) ("a") ⟨[MetEv.toggle], rfl⟩).1
      (by decide),
    (c7_switch_lock (metStep metInit MetEv.toggle) ("a") ⟨[MetEv.toggle], rfl⟩).2.1⟩

/-- C9 counterexample: after a metronome failure schedules the auto-retry, handleStop
leaves the timeout pending — the ClickTrackScheduler stop does not clear it. -/
theorem c9_counterexample :
    metronomeRetryStep (metronomeRetryStep 0 RetryEv.fail) RetryEv.stop = 1
    ∧ (1 : ℕ) ≠ 0 := by
  decide

/-- C9 amended: along every event trace each of the three components has at most one
pending auto-retry timeout, and a failure schedules one only when none is pending; the
tuner stop and the drone stop clear a pending timeout, but the metronome handleStop does
not — only its unmount cleanup does. -/
theorem c9_retry_invariant (evs : List RetryEv) (n : ℕ) :
    List.foldl tunerRetryStep 0 evs ≤ 1
    ∧ List.foldl metronomeRetryStep 0 evs ≤ 1
    ∧ List.foldl droneRetryStep 0 evs ≤ 1
    ∧ tunerRetryStep n RetryEv.stop = 0
    ∧ droneRetryStep n RetryEv.stop = 0
    ∧ metronomeRetryStep n RetryEv.unmount = 0
    ∧ (0 < n → tunerRetryStep n RetryEv.fail = n ∧ metronomeRetryStep n RetryEv.fail = n)
    ∧ tunerRetryStep 0 RetryEv.fail = 1 := by
  refine ⟨foldl_le_one _ retry_le_one_tuner evs 0 (by omega),
    foldl_le_one _ retry_le_one_metronome evs 0 (by omega),
    foldl_le_one _ retry_le_one_drone evs 0 (by omega), rfl, rfl, rfl, ?_, rfl⟩
  intro hn
  refine ⟨?_, ?_⟩
  · simp only [tunerRetryStep]
    rw [if_neg (by omega)]
  · simp only [metronomeRetryStep]
    rw [if_neg (by omega)]

/-- C9 witness: the invariant evaluated on a concrete failure-fire-stop trace. -/
theorem c9_witness :
    List.foldl tunerRetryStep 0 [RetryEv.fail, RetryEv.fire true true, RetryEv.stop] ≤ 1
    ∧ tunerRetryStep 1 RetryEv.fail = 1 :=
  ⟨(c9_retry_invariant [RetryEv.fail, RetryEv.fire true true, RetryEv.stop] 1).1,
    ((c9_retry_invariant [RetryEv.fail, RetryEv.fire true true, RetryEv.stop]
        1).2.2.2.2.2.2.1 (by decide)).1⟩

theorem rmsOf_replicate_zero (n : ℕ) : rmsOf (List.replicate n 0) = 0 := by
  simp [rmsOf]

/-- C1 counterexample: a 2048-sample window of silence (RMS 0, below the 0.01 gate)
does not emit a null reading: the previous note and cents survive the iteration
unchanged, while the claim demands that the iteration emit no-pitch (note = none). -/
theorem c1_counterexample :
    rmsOf (List.replicate 2048 0) < minRMS
    ∧ (detect (List.replicate 2048 0) 100 440 1
        ⟨some (NOTE_NAMES.getD 9 default, 4), some 0, 0⟩).1.note =
      some (NOTE_NAMES.getD 9 default, 4)
    ∧ some (NOTE_NAMES.getD 9 default, (4 : ℤ)) ≠ (none : Option (String × ℤ))
    ∧ (detect (List.replicate 2048 0) 100 440 1
        ⟨some (NOTE_NAMES.getD 9 default, 4), some 0, 0⟩).2 = false := by
  have h0 : rmsOf (List.replicate 2048 0) = 0 := rmsOf_replicate_zero 2048
  have h1 : rmsOf (List.replicate 2048 0) < minRMS := by
    rw [h0]
    norm_num [minRMS]
  have h2 : detect (List.replicate 2048 0) 100 440 1
      ⟨some (NOTE_NAMES.getD 9 default, 4), some 0, 0⟩ =
      (⟨some (NOTE_NAMES.getD 9 default, 4), some 0, 0⟩, false) := by
    unfold detect
    rw [if_neg (fun hc => absurd hc.1 (not_lt.mpr (le_of_lt h1)))]
  refine ⟨h1, by rw [h2], by simp, by rw [h2]⟩

/-- C1 amended: an analysis window whose RMS is at or below the silence gate runs no
pitch estimation and produces no emission at all: the previous note / cents reading and
the throttle timestamp are left exactly as they were. -/
theorem c1_silence_no_update (buffer : List ℝ) (now pitch clarity : ℝ)
    (st : TunerReading) (h : rmsOf buffer ≤ minRMS) :
    detect buffer now pitch clarity st = (st, false) := by
  unfold detect
  rw [if_neg (fun hc => absurd hc.1 (not_lt.mpr h))]

/-- C1 witness: the silent step evaluated on a concrete one-sample window. -/
theorem c1_witness :
    detect [0] 5 440 1 ⟨none, none, 0⟩ = (⟨none, none, 0⟩, false) :=
  c1_silence_no_update [0] 5 440 1 ⟨none, none, 0⟩ (by
    have h : rmsOf [0] = 0 := by simp [rmsOf]
    rw [h]
    norm_num [minRMS])

theorem semitonesOf_noteToFrequency (pc : ℕ) (oct : ℤ) :
    semitonesOf (noteToFrequency pc oct) = ((12 * oct + pc : ℤ) : ℝ) - 57 := by
  unfold semitonesOf noteToFrequency
  rw [mul_div_cancel_left₀ _ (by norm_num : (440 : ℝ) ≠ 0)]
  rw [Real.logb_rpow (by norm_num) (by norm_num)]
  rw [mul_comm, div_mul_cancel₀ _ (by norm_num : (12 : ℝ) ≠ 0)]

theorem noteIndexOf_noteToFrequency (pc : ℕ) (oct : ℤ) :
    noteIndexOf (noteToFrequency pc oct) = 12 * oct + pc := by
  unfold noteIndexOf
  rw [semitonesOf_noteToFrequency]
  have hc : ((12 * oct + pc : ℤ) : ℝ) - 57 = ((12 * oct + pc - 57 : ℤ) : ℝ) := by
    push_cast
    ring
  rw [hc, round_intCast]
  omega

theorem detectNoteIndex_noteToFrequency (pc : ℕ) (oct : ℤ) :
    detectNoteIndex (noteToFrequency pc oct) = 12 * oct + pc := by
  show round (semitonesOf (noteToFrequency pc oct) + 57) = 12 * oct + pc
  rw [semitonesOf_noteToFrequency]
  have hc : ((12 * oct + pc : ℤ) : ℝ) - 57 + 57 = ((12 * oct + pc : ℤ) : ℝ) := by ring
  rw [hc, round_intCast]

/-- C5: for every supported note, converting to the frequency given by the source
formula 440 * 2 ^ ((noteIndex - 57) / 12) and back through getNoteName recovers the
pitch class name and the octave exactly, the detected-note frequency equals the input
frequency, and the reported cents deviation is exactly 0 (hence within 0.01 cent). -/
theorem c5_roundtrip (pc : ℕ) (oct : ℤ) (hpc : pc < 12) (h2 : 2 ≤ oct) (h6 : oct ≤ 6) :
    getNoteName (noteToFrequency pc oct) = (NOTE_NAMES.getD pc default, oct)
    ∧ detectNoteFreq (noteToFrequency pc oct) = noteToFrequency pc oct
    ∧ getCents (noteToFrequency pc oct) (detectNoteFreq (noteToFrequency pc oct)) = 0
    ∧ |((getCents (noteToFrequency pc oct)
        (detectNoteFreq (noteToFrequency pc oct)) : ℤ) : ℝ)| ≤ 1 / 100 := by
  have hpcz : (pc : ℤ) < 12 := by exact_mod_cast hpc
  have hidx := noteIndexOf_noteToFrequency pc oct
  have hname : getNoteName (noteToFrequency pc oct) = (NOTE_NAMES.getD pc default, oct) := by
    unfold getNoteName
    rw [hidx]
    have hnn : (0 : ℤ) ≤ 12 * oct + pc + 12 * 1000 := by omega
    rw [Int.tmod_eq_emod hnn (by norm_num)]
    have hm : (12 * oct + (pc : ℤ) + 12 * 1000) % 12 = pc := by omega
    rw [hm]
    rw [Int.fdiv_eq_ediv _ (by norm_num)]
    have hd : (12 * oct + (pc : ℤ)) / 12 = oct := by omega
    rw [hd]
    simp
  have hfreq : detectNoteFreq (noteToFrequency pc oct) = noteToFrequency pc oct := by
    unfold detectNoteFreq
    rw [detectNoteIndex_noteToFrequency]
    rfl
  have hpos : 0 < noteToFrequency pc oct := by
    unfold noteToFrequency
    positivity
  have hcents : getCents (noteToFrequency pc oct)
      (detectNoteFreq (noteToFrequency pc oct)) = 0 := by
    rw [hfreq]
    unfold getCents
    rw [div_self (ne_of_gt hpos), Real.logb_one, mul_zero, Int.floor_zero]
  refine ⟨hname, hfreq, hcents, ?_⟩
  rw [hcents]
  norm_num

/-- C5 witness: the round trip evaluated at A4 (pitch class 9, octave 4). -/
theorem c5_witness :
    getNoteName (noteToFrequency 9 4) = (NOTE_NAMES.getD 9 default, 4)
    ∧ detectNoteFreq (noteToFrequency 9 4) = noteToFrequency 9 4
    ∧ getCents (noteToFrequency 9 4) (detectNoteFreq (noteToFrequency 9 4)) = 0
    ∧ |((getCents (noteToFrequency 9 4)
        (detectNoteFreq (noteToFrequency 9 4)) : ℤ) : ℝ)| ≤ 1 / 100 :=
  c5_roundtrip 9 4 (by norm_num) (by norm_num) (by norm_num)

/-- C6: with just intonation on and 2 or 3 selected notes, the sounding frequency of the
root slot is its plain equal-tempered frequency, every non-root slot sounds at the root
equal-tempered frequency times the fixed 5-limit ratio at its interval class times
2 ^ octaveDiff, and in particular a non-root slot at interval class 7 (P5) with octave
difference 0 sounds at exactly 3/2 times the root frequency. -/
theorem c6_just_intonation (a4Frequency : ℝ) (rootName : String) (restNotes : List String)
    (noteOctaves : List ℤ) (octave : ℤ) (i : ℕ)
    (h2 : 2 ≤ (rootName :: restNotes).length) (h3 : (rootName :: restNotes).length ≤ 3)
    (hi : 1 ≤ i) (hilt : i < (rootName :: restNotes).length) :
    (freqsToPlay true a4Frequency (rootName :: restNotes) noteOctaves octave)[0]? =
      some (getFrequency a4Frequency rootName (noteOctaves.getD 0 octave))
    ∧ (freqsToPlay true a4Frequency (rootName :: restNotes) noteOctaves octave)[i]? =
      some (getFrequency a4Frequency rootName (noteOctaves.getD 0 octave) *
        JUST_INTONATION_RATIOS.getD
          (intervalOf (noteMidi rootName (noteOctaves.getD 0 octave))
            (noteMidi ((rootName :: restNotes).get ⟨i, hilt⟩)
              (noteOctaves.getD i octave))).toNat 0 *
        (2 : ℝ) ^ octaveDiffOf (noteMidi rootName (noteOctaves.getD 0 octave))
          (noteMidi ((rootName :: restNotes).get ⟨i, hilt⟩) (noteOctaves.getD i octave)))
    ∧ (intervalOf (noteMidi rootName (noteOctaves.getD 0 octave))
          (noteMidi ((rootName :: restNotes).get ⟨i, hilt⟩) (noteOctaves.getD i octave)) = 7 →
       octaveDiffOf (noteMidi rootName (noteOctaves.getD 0 octave))
          (noteMidi ((rootName :: restNotes).get ⟨i, hilt⟩) (noteOctaves.getD i octave)) = 0 →
       (freqsToPlay true a4Frequency (rootName :: restNotes) noteOctaves octave)[i]? =
         some ((3 / 2) * getFrequency a4Frequency rootName (noteOctaves.getD 0 octave))) := by
  have hexp : freqsToPlay true a4Frequency (rootName :: restNotes) noteOctaves octave =
      (rootName :: restNotes).mapIdx fun j n =>
        if j = 0 then getFrequency a4Frequency rootName (noteOctaves.getD 0 octave)
        else
          getFrequency a4Frequency rootName (noteOctaves.getD 0 octave) *
              JUST_INTONATION_RATIOS.getD
                (intervalOf (noteMidi rootName (noteOctaves.getD 0 octave))
                  (noteMidi n (noteOctaves.getD j octave))).toNat 0 *
            (2 : ℝ) ^ octaveDiffOf (noteMidi rootName (noteOctaves.getD 0 octave))
              (noteMidi n (noteOctaves.getD j octave)) := by
    simp only [freqsToPlay]
    rw [if_pos ⟨trivial, by omega, by omega⟩]
  have hzero :
      (freqsToPlay true a4Frequency (rootName :: restNotes) noteOctaves octave)[0]? =
        some (getFrequency a4Frequency rootName (noteOctaves.getD 0 octave)) := by
    rw [hexp]
    simp
  have hmain :
      (freqsToPlay true a4Frequency (rootName :: restNotes) noteOctaves octave)[i]? =
        some (getFrequency a4Frequency rootName (noteOctaves.getD 0 octave) *
          JUST_INTONATION_RATIOS.getD
            (intervalOf (noteMidi rootName (noteOctaves.getD 0 octave))
              (noteMidi ((rootName :: restNotes).get ⟨i, hilt⟩)
                (noteOctaves.getD i octave))).toNat 0 *
          (2 : ℝ) ^ octaveDiffOf (noteMidi rootName (noteOctaves.getD 0 octave))
            (noteMidi ((rootName :: restNotes).get ⟨i, hilt⟩)
              (noteOctaves.getD i octave))) := by
    rw [hexp]
    rw [List.getElem?_mapIdx, List.getElem?_eq_getElem hilt]
    simp only [Option.map_some']
    rw [if_neg (by omega : ¬ i = 0)]
    simp [List.get_eq_getElem]
  refine ⟨hzero, hmain, ?_⟩
  intro h7 h0
  rw [hmain, h7, h0]
  have hr : JUST_INTONATION_RATIOS.getD ((7 : ℤ)).toNat 0 = 3 / 2 := rfl
  rw [hr]
  rw [zpow_zero]
  ring_nf

/-- C6 witness: root C4 with second voice G4 at A4 = 440 with just intonation on sounds
the perfect fifth at exactly 3/2 of the root frequency. -/
theorem c6_witness :
    (freqsToPlay true 440 [("C"), ("G")] [4, 4] 4)[1]? =
      some ((3 / 2) * getFrequency 440 ("C") (List.getD [4, 4] 0 4)) :=
  (c6_just_intonation 440 ("C") [("G")] [4, 4] 4 1 (by norm_num) (by norm_num)
      (by norm_num) (by norm_num)).2.2 (by decide) (by decide)
